import Mathlib

set_option maxRecDepth 2000

/-!
Verification of the interactive boundary-curve and region-extraction engine
(the bezier marker tool: `app/tools/bezier.py`, with the generic command
manager from `app/core/commands.py`).

The embedding is shallow and exact-arithmetic: 3D points are rational
triples, the surface mesh is a list of vertex positions plus faces and
named point-data arrays, and the tool state carries the ordered anchor
lists (`nodes` actor tokens / `node_ids` vertex ids), the segment path
cache, the closed flag, the visual radius and a fresh-actor counter.
External collaborators (the plotter, renderer, pickers, and pyvista
filters that return new datasets) have no effect on this state and are
dropped; queries the core receives from collaborators (ray casts,
normal computation) are passed in as explicit arguments.
-/

/-- A 3D point with exact rational coordinates. -/
structure Pt where
  x : ℚ
  y : ℚ
  z : ℚ
  deriving DecidableEq, Repr

def ptZero : Pt := ⟨0, 0, 0⟩

def padd (a b : Pt) : Pt := ⟨a.x + b.x, a.y + b.y, a.z + b.z⟩

def psub (a b : Pt) : Pt := ⟨a.x - b.x, a.y - b.y, a.z - b.z⟩

def psmul (t : ℚ) (a : Pt) : Pt := ⟨t * a.x, t * a.y, t * a.z⟩

def pneg (a : Pt) : Pt := ⟨-a.x, -a.y, -a.z⟩

def pdot (a b : Pt) : ℚ := a.x * b.x + a.y * b.y + a.z * b.z

def pcross (a b : Pt) : Pt :=
  ⟨a.y * b.z - a.z * b.y, a.z * b.x - a.x * b.z, a.x * b.y - a.y * b.x⟩

/-- Squared euclidean distance between two points. -/
def sqDist (a b : Pt) : ℚ := pdot (psub a b) (psub a b)

/--
The surface the tool session is anchored to: per-vertex positions, faces
(each a list of vertex ids), and the two point-data arrays the extraction
code reads or writes (`Normals`, `is_barrier`), each modelled per key.
-/
structure SurfaceMesh where
  points : List Pt
  faces : List (List Nat)
  normalsArr : Option (List Pt)
  barrierArr : Option (List Int)
  deriving DecidableEq, Repr

/-- First-index argmin of a nonempty indexed value list (accumulator form). -/
def argminList : List (Nat × ℚ) → Nat × ℚ → Nat × ℚ
  | [], acc => acc
  | (i, v) :: rest, (bi, bv) =>
    argminList rest (if v < bv then (i, v) else (bi, bv))

/--
`mesh.find_closest_point(p)` / cKDTree nearest query: the index of the
vertex nearest to `p` (first index on ties; 0 for an empty mesh, which
the code never queries).
-/
def findClosestPoint (m : SurfaceMesh) (p : Pt) : Nat :=
  match m.points.enum.map (fun iq => (iq.1, sqDist p iq.2)) with
  | [] => 0
  | iv :: rest => (argminList rest iv).1

/-- The tool's mutable curve state (`BezierMarkerTool` fields). -/
structure ToolState where
  nodes : List Nat
  node_ids : List Nat
  path_cache : List ((Nat × Nat) × List Pt)
  is_closed : Bool
  node_radius : ℚ
  next_actor : Nat
  deriving DecidableEq, Repr

/-- The path cache key: the unordered (sorted) pair of the two vertex ids. -/
def pairKey (a b : Nat) : Nat × Nat := (min a b, max a b)

def cacheLookup (key : Nat × Nat) (c : List ((Nat × Nat) × List Pt)) :
    Option (List Pt) :=
  (c.find? (fun e => decide (e.1 = key))).map Prod.snd

/-- Largest `j ≤ k` with `j * j ≤ n` (downward scan, structurally recursive). -/
def isqrtAux (n : Nat) : Nat → Nat
  | 0 => 0
  | k + 1 => if (k + 1) * (k + 1) ≤ n then k + 1 else isqrtAux n k

/-- The integer square root `⌊√n⌋` (see `isqrt_le` and `lt_isqrt_succ` below). -/
def isqrt (n : Nat) : Nat := isqrtAux n n

/--
Sample count of `_get_segment_points`: the source computes
`int(max(10, dist / 0.5))` with `dist = |b - a|`, i.e. `max 10 ⌊2·|b-a|⌋`.
Over exact rationals `⌊2·√q⌋ = ⌊√(4q)⌋ = isqrt ⌊4q⌋` (an integer `n`
satisfies `n ≤ 2·√q` iff `n² ≤ 4q` iff `n² ≤ ⌊4q⌋`), which keeps the
definition computable.
-/
def segNum (a b : Pt) : Nat := max 10 (isqrt (Int.toNat ⌊4 * sqDist a b⌋))

/--
`np.linspace(0, 1, n)` then `p_a + np.outer(t, p_b - p_a)`: the `n`
linear interpolation samples from `a` to `b`.  (For `n = 1` the rational
convention `0 / 0 = 0` makes this `[a]`, matching `linspace(0, 1, 1)`.)
-/
def interpPoints (a b : Pt) (n : Nat) : List Pt :=
  (List.range n).map
    (fun k : Nat => padd a (psmul ((k : ℚ) / ((n : ℚ) - 1)) (psub b a)))

/-- Snap one interpolated point to its nearest surface vertex. -/
def snapPoint (m : SurfaceMesh) (p : Pt) : Pt :=
  m.points.getD (findClosestPoint m p) ptZero

/-- The cache-miss computation of `_get_segment_points` for vertex ids `pa, pb`. -/
def computeSegment (m : SurfaceMesh) (pa pb : Nat) : List Pt :=
  let a := m.points.getD pa ptZero
  let b := m.points.getD pb ptZero
  (interpPoints a b (segNum a b)).map (snapPoint m)

/-- `_get_segment_points(idx_a, idx_b)`: cached geodesic proxy between anchors. -/
def getSegmentPoints (m : SurfaceMesh) (s : ToolState) (ia ib : Nat) :
    List Pt × ToolState :=
  let pa := s.node_ids.getD ia 0
  let pb := s.node_ids.getD ib 0
  let key := pairKey pa pb
  match cacheLookup key s.path_cache with
  | some pts => (pts, s)
  | none =>
    let pts := computeSegment m pa pb
    (pts, { s with path_cache := (key, pts) :: s.path_cache })

/--
The segment loop of `_get_full_path_points`: chunks are accumulated in
order; every chunk after the first drops its first point
(`pts[1:] if full else pts`).
-/
def fullPathGo (m : SurfaceMesh) (count : Nat) :
    List Nat → ToolState → List (List Pt) → List (List Pt) × ToolState
  | [], s, acc => (acc, s)
  | i :: rest, s, acc =>
    let r := getSegmentPoints m s i ((i + 1) % count)
    fullPathGo m count rest r.2 (acc ++ [if acc.isEmpty then r.1 else r.1.drop 1])

/-- `_get_full_path_points`. -/
def getFullPathPoints (m : SurfaceMesh) (s : ToolState) : List Pt × ToolState :=
  if s.nodes.length < 2 then ([], s)
  else
    let count := s.nodes.length
    let rng := if s.is_closed then count else count - 1
    let r := fullPathGo m count (List.range rng) s []
    (r.1.flatten, r.2)

/--
`update_curve`: rebuilds the spline visualization from the full path.
Rendering is external; the state effect is the path-cache population
performed by `_get_full_path_points`.
-/
def updateCurve (m : SurfaceMesh) (s : ToolState) : ToolState :=
  (getFullPathPoints m s).2

/-- Python `list.insert` index clamping: negatives count from the end. -/
def pyInsertPos (len : Nat) (i : Int) : Nat :=
  if i < 0 then ((len : Int) + i).toNat else min i.toNat len

/-- Python `list.insert(i, x)`. -/
def pyInsert {α : Type} (l : List α) (i : Int) (x : α) : List α :=
  let p := pyInsertPos l.length i
  l.take p ++ x :: l.drop p

/--
`_internal_add_node(pos, insert_after_idx)`: snaps `pos` to the nearest
vertex; an append whose vertex equals the last anchor's vertex returns
the existing last anchor unchanged; otherwise a fresh actor is created
and inserted (with a full cache clear via `_invalidate_neighbors`) or
appended (no invalidation), and the curve is updated.
-/
def internalAddNode (m : SurfaceMesh) (s : ToolState) (pos : Pt)
    (insertAfterIdx : Int) : (Nat × Nat) × ToolState :=
  let pid := findClosestPoint m pos
  if s.node_ids ≠ [] ∧ insertAfterIdx = -1 ∧ s.node_ids.getLast? = some pid then
    ((s.nodes.getLastD 0, pid), s)
  else
    let actor := s.next_actor
    let s1 :=
      if insertAfterIdx ≠ -1 then
        { s with nodes := pyInsert s.nodes (insertAfterIdx + 1) actor,
                 node_ids := pyInsert s.node_ids (insertAfterIdx + 1) pid,
                 path_cache := [],
                 next_actor := s.next_actor + 1 }
      else
        { s with nodes := s.nodes ++ [actor],
                 node_ids := s.node_ids ++ [pid],
                 next_actor := s.next_actor + 1 }
    ((actor, pid), updateCurve m s1)

/--
`_internal_remove_node_by_actor`: removes by identity (silent no-op when
absent), clears the cache, forces the loop open when fewer than 3
anchors remain, and updates the curve.
-/
def internalRemoveByActor (m : SurfaceMesh) (s : ToolState) (actor : Nat) :
    ToolState :=
  match s.nodes.findIdx? (fun a => decide (a = actor)) with
  | none => s
  | some idx =>
    let s1 := { s with nodes := s.nodes.eraseIdx idx,
                       node_ids := s.node_ids.eraseIdx idx,
                       path_cache := [] }
    updateCurve m
      { s1 with is_closed := if s1.nodes.length < 3 then false else s1.is_closed }

/-- `_internal_restore_node`: re-inserts a removed anchor at its exact index. -/
def internalRestoreNode (m : SurfaceMesh) (s : ToolState) (actor pid idx : Nat)
    (wasClosed : Bool) : ToolState :=
  updateCurve m
    { s with nodes := pyInsert s.nodes (idx : Int) actor,
             node_ids := pyInsert s.node_ids (idx : Int) pid,
             is_closed := wasClosed,
             path_cache := [] }

/-- `_internal_update_node_pos`: rebinds an anchor's vertex id (move). -/
def internalUpdateNodePos (m : SurfaceMesh) (s : ToolState) (actor pid : Nat) :
    ToolState :=
  match s.nodes.findIdx? (fun a => decide (a = actor)) with
  | none => s
  | some idx =>
    updateCurve m { s with node_ids := s.node_ids.set idx pid, path_cache := [] }

/-- `_internal_hard_reset`: clears sequence, cache and closed flag. -/
def internalHardReset (s : ToolState) : ToolState :=
  { s with nodes := [], node_ids := [], path_cache := [], is_closed := false }

/-- `_internal_restore_full_state`: hard reset, then replay a saved snapshot. -/
def internalRestoreFullState (m : SurfaceMesh) (s : ToolState)
    (ns ids : List Nat) (cl : Bool) : ToolState :=
  updateCurve m
    { internalHardReset s with
      nodes := ns,
      node_ids := (List.range ns.length).map (fun i => ids.getD i 0),
      is_closed := cl }

/-- `_dist_sq_to_segment(p, a, b)`: squared distance from `p` to segment `ab`
with clamped parametrization. -/
def distSqToSegment (p a b : Pt) : ℚ :=
  let ab := psub b a
  let ap := psub p a
  let lenSq := pdot ab ab
  if lenSq = 0 then pdot ap ap
  else
    let t := max 0 (min 1 (pdot ap ab / lenSq))
    let dv := psub p (padd a (psmul t ab))
    pdot dv dv

/-- Consecutive point pairs of a polyline (`pts[k], pts[k+1]`). -/
def consecPairs (l : List Pt) : List (Pt × Pt) := l.zip l.tail

/-- Strict comparison against the running minimum, `none` playing `inf`. -/
def ltOpt (d : ℚ) : Option ℚ → Bool
  | none => true
  | some v => decide (d < v)

/-- The inner `for k` loop of `_resolve_insertion_index`: strict-improvement
tracking of the best segment index and minimal squared distance. -/
def innerScan (hit : Pt) (i : Int) :
    Int × Option ℚ → List (Pt × Pt) → Int × Option ℚ
  | acc, [] => acc
  | (b, mo), (a, c) :: rest =>
    let d := distSqToSegment hit a c
    innerScan hit i (if ltOpt d mo then (i, some d) else (b, mo)) rest

/-- The outer `for i` loop of `_resolve_insertion_index`, threading the
path-cache state through `_get_segment_points`. -/
def resolveGo (m : SurfaceMesh) (hit : Pt) (count : Nat) :
    List Nat → ToolState → Int × Option ℚ → (Int × Option ℚ) × ToolState
  | [], s, acc => (acc, s)
  | i :: rest, s, acc =>
    let r := getSegmentPoints m s i ((i + 1) % count)
    let acc' := if r.1.length < 2 then acc
                else innerScan hit (i : Int) acc (consecPairs r.1)
    resolveGo m hit count rest r.2 acc'

/-- `_resolve_insertion_index(hit_pos)`: index of the segment to insert after,
or `-1` to append. -/
def resolveInsertionIndex (m : SurfaceMesh) (s : ToolState) (hit : Pt) :
    Int × ToolState :=
  if s.nodes.length < 2 then (-1, s)
  else
    let thresholdSq := (s.node_radius * (7 / 2)) ^ 2
    let count := s.nodes.length
    let loopRange := if s.is_closed then count else count - 1
    let r := resolveGo m hit count (List.range loopRange) s (-1, none)
    match r.1.2 with
    | some d => if d < thresholdSq then (r.1.1, r.2) else (-1, r.2)
    | none => (-1, r.2)

/-!
The reversible commands of `bezier.py` and the generic `CommandManager`.
A command record carries the state the Python object captures: `BezierCmdAdd`
stores the actor it (believes it) added during `execute`; `BezierCmdDelete`
snapshots index, vertex id and closed flag at construction (index `none`
models the `-1` sentinel for an absent actor); `BezierCmdMove` stores both
vertex ids; `BezierCmdCloseLoop` the previous closed flag; `BezierCmdClear`
the full anchor snapshot.
-/

inductive CmdRec where
  | add (pos : Pt) (insertIdx : Int) (addedActor : Option Nat)
  | del (actor : Nat) (snap : Option (Nat × Nat)) (wasClosed : Bool)
  | move (actor : Nat) (oldPid newPid : Nat)
  | closeLoop (prevState : Bool)
  | clear (savedNodes savedIds : List Nat) (savedClosed : Bool)
  deriving DecidableEq, Repr

/-- `command.execute()`; the updated record mirrors the Python object's
mutated fields (`added_actor`). -/
def execCmd (m : SurfaceMesh) : CmdRec → ToolState → CmdRec × ToolState
  | .add pos idx _, s =>
    let r := internalAddNode m s pos idx
    (.add pos idx (some r.1.1), r.2)
  | .del actor snap wc, s => (.del actor snap wc, internalRemoveByActor m s actor)
  | .move actor op np, s => (.move actor op np, internalUpdateNodePos m s actor np)
  | .closeLoop prev, s => (.closeLoop prev, updateCurve m { s with is_closed := true })
  | .clear ns ids cl, s => (.clear ns ids cl, internalHardReset s)

/-- `command.undo()`. -/
def undoCmd (m : SurfaceMesh) : CmdRec → ToolState → ToolState
  | .add _ _ added, s =>
    match added with
    | none => s
    | some a => internalRemoveByActor m s a
  | .del actor snap wc, s =>
    match snap with
    | none => s
    | some (idx, pid) => internalRestoreNode m s actor pid idx wc
  | .move actor op _, s => internalUpdateNodePos m s actor op
  | .closeLoop prev, s => updateCurve m { s with is_closed := prev }
  | .clear ns ids cl, s => internalRestoreFullState m s ns ids cl

/-- The tool state together with the `CommandManager` stacks. -/
structure SysState where
  tool : ToolState
  undoStack : List CmdRec
  redoStack : List CmdRec
  deriving DecidableEq, Repr

/-- `CommandManager.execute`: run, push on the undo stack, clear redo. -/
def mgrExec (m : SurfaceMesh) (c : CmdRec) (σ : SysState) : SysState :=
  let r := execCmd m c σ.tool
  ⟨r.2, r.1 :: σ.undoStack, []⟩

/-- `CommandManager.undo`. -/
def mgrUndo (m : SurfaceMesh) (σ : SysState) : SysState :=
  match σ.undoStack with
  | [] => σ
  | c :: rest => ⟨undoCmd m c σ.tool, rest, c :: σ.redoStack⟩

/-- `CommandManager.redo`. -/
def mgrRedo (m : SurfaceMesh) (σ : SysState) : SysState :=
  match σ.redoStack with
  | [] => σ
  | c :: rest =>
    let r := execCmd m c σ.tool
    ⟨r.2, r.1 :: σ.undoStack, rest⟩

/-- User-level gestures that reach the command manager. -/
inductive UAction where
  | add (pos : Pt) (insertIdx : Int)
  | del (actor : Nat)
  | move (actor : Nat) (newPid : Nat)
  | close
  | clear
  | undo
  | redo
  deriving DecidableEq, Repr

/--
One user action against the system: `add_node_at` wraps a fresh
`BezierCmdAdd`; `delete_node_cmd` constructs `BezierCmdDelete` with its
construction-time snapshot; a drag commits a `BezierCmdMove` only when the
end vertex differs from the start vertex (`OnLeftUp`); `close_loop` is
guarded by `len(nodes) > 2 and not is_closed`; `clear_markup_cmd` snapshots
the full state; undo and redo drive the manager stacks.
-/
def applyAction (m : SurfaceMesh) (σ : SysState) : UAction → SysState
  | .add pos insertIdx => mgrExec m (.add pos insertIdx none) σ
  | .del actor =>
    let snap := (σ.tool.nodes.findIdx? (fun a => decide (a = actor))).map
      (fun idx => (idx, σ.tool.node_ids.getD idx 0))
    mgrExec m (.del actor snap σ.tool.is_closed) σ
  | .move actor newPid =>
    match σ.tool.nodes.findIdx? (fun a => decide (a = actor)) with
    | none => σ
    | some idx =>
      let oldPid := σ.tool.node_ids.getD idx 0
      if oldPid = newPid then σ else mgrExec m (.move actor oldPid newPid) σ
  | .close =>
    if 2 < σ.tool.nodes.length ∧ σ.tool.is_closed = false then
      mgrExec m (.closeLoop σ.tool.is_closed) σ
    else σ
  | .clear => mgrExec m (.clear σ.tool.nodes σ.tool.node_ids σ.tool.is_closed) σ
  | .undo => mgrUndo m σ
  | .redo => mgrRedo m σ

def runActions (m : SurfaceMesh) (σ : SysState) (acts : List UAction) : SysState :=
  acts.foldl (applyAction m) σ

/-- A fresh tool session (`start()` with visual radius `r`). -/
def initTool (r : ℚ) : ToolState := ⟨[], [], [], false, r, 0⟩

def initSys (r : ℚ) : SysState := ⟨initTool r, [], []⟩

/-- The observable anchor-store state the spec's invariants speak about:
the ordered vertex-id sequence and the closed flag. -/
def obs (t : ToolState) : List Nat × Bool := (t.node_ids, t.is_closed)

/-!
Region extraction (`get_selected_region` and `_make_barrier_watertight`).
Collaborator results are explicit arguments: `rayHits` is what
`mesh.ray_trace` returns, `computedNormals` what `compute_normals` would
store when the `Normals` array is absent.  The pipeline tail (threshold,
connectivity, region threshold, `extract_surface().clean()`) operates on
new datasets returned by pyvista filters — it never writes the live mesh —
and its final outcome is abstracted as `extractionResult`.
-/

/-- `scipy.spatial.cKDTree.query(p, k)` index list: all vertex indices
sorted by (squared distance, index), truncated to `k` and padded with the
out-of-range index `n` when the mesh has fewer than `k` points. -/
def insertByDist (x : Nat × ℚ) : List (Nat × ℚ) → List (Nat × ℚ)
  | [] => [x]
  | y :: ys =>
    if x.2 < y.2 ∨ (x.2 = y.2 ∧ x.1 < y.1) then x :: y :: ys
    else y :: insertByDist x ys

def kNearest (m : SurfaceMesh) (p : Pt) (k : Nat) : List Nat :=
  let sorted := (m.points.enum.map (fun iq => (iq.1, sqDist p iq.2))).foldr
    insertByDist []
  (sorted.map Prod.fst).take k ++
    List.replicate (k - m.points.length) m.points.length

/-- `mesh.point_cell_ids(p)`: ids of the cells containing vertex `p`. -/
def pointCellIds (m : SurfaceMesh) (p : Nat) : List Nat :=
  (List.range m.faces.length).filter (fun c => decide (p ∈ m.faces.getD c []))

/-- Consecutive-duplicate removal (`ordered_ids` construction). -/
def dedupConsec (i0 : Nat) : List Nat → List Nat
  | [] => [i0]
  | x :: xs => if x = i0 then dedupConsec i0 xs else i0 :: dedupConsec x xs

/-- One cell's vertex scan inside the barrier BFS: stop when the target is
found, otherwise enqueue unvisited vertices. -/
def scanPts (e : Nat) (path : List Nat) :
    List Nat → List Nat → List (Nat × List Nat) →
    Bool × List Nat × List (Nat × List Nat)
  | [], vis, q => (false, vis, q)
  | n :: ns, vis, q =>
    if n = e then (true, vis, q)
    else if n ∈ vis then scanPts e path ns vis q
    else scanPts e path ns (vis ++ [n]) (q ++ [(n, path ++ [n])])

/-- The `for cid` loop of the barrier BFS (`if found: break`). -/
def scanCells (m : SurfaceMesh) (e : Nat) (path : List Nat) :
    List Nat → List Nat → List (Nat × List Nat) →
    Bool × List Nat × List (Nat × List Nat)
  | [], vis, q => (false, vis, q)
  | c :: cs, vis, q =>
    match scanPts e path (m.faces.getD c []) vis q with
    | (true, v, qq) => (true, v, qq)
    | (false, v, qq) => scanCells m e path cs v qq

/--
The BFS `while q` loop, fuel-indexed.  Each iteration pops one queue
entry; an entry is enqueued only together with a fresh addition to `vis`,
so the loop runs at most `1 + Σ |face|` times and any fuel of at least
`2 + Σ |face|` reproduces the unbounded Python loop.  The `20`-hop path
bound is the source's search-depth limit.
-/
def bfsPair (m : SurfaceMesh) (e : Nat) :
    Nat → List (Nat × List Nat) → List Nat → Option (List Nat)
  | 0, _, _ => none
  | _ + 1, [], _ => none
  | fuel + 1, (cur, path) :: rest, vis =>
    if 20 < path.length then bfsPair m e fuel rest vis
    else
      match scanCells m e path (pointCellIds m cur) vis rest with
      | (true, _, _) => some path
      | (false, vis', q') => bfsPair m e fuel q' vis'

def bfsFuel (m : SurfaceMesh) : Nat := (m.faces.map List.length).sum + 2

/--
`_make_barrier_watertight(initial_ids)`: dedupe consecutive ids, then for
every consecutive pair not sharing a cell splice in a BFS path.  The
Python `set` union is modelled as list concatenation (only membership in
the result is ever used).
-/
def makeBarrierWatertight (m : SurfaceMesh) (initialIds : List Nat) : List Nat :=
  match initialIds with
  | [] => []
  | i0 :: rest =>
    let ordered := dedupConsec i0 rest
    (ordered.zip ordered.tail).foldl
      (fun final se =>
        if (pointCellIds m se.1).any (fun c => decide (c ∈ pointCellIds m se.2))
        then final
        else
          match bfsPair m se.2 (bfsFuel m) [(se.1, [])] [se.1] with
          | some path => final ++ path
          | none => final)
      ordered

/-- Mean of a list of points (`np.mean(..., axis=0)`). -/
def ptMean (l : List Pt) : Pt :=
  psmul (1 / (l.length : ℚ)) (l.foldl padd ptZero)

/--
The per-candidate acceptance test of step 3: with the normalized loop
normal `u = r/|r|` the source tests `dot(vertex_normal, u) > -0.2`.
Squared-form equivalent over the unnormalized (already z-flipped) `r`:
`d = dot(vertex_normal, r)` passes iff `0 ≤ d` or `d² < |r|²/25`.
In the degenerate branch the normal is exactly `(0,0,1)` and the test is
taken literally.
-/
def normalAccepts (rawN : Pt) (degenerate : Bool) (nrm : Pt) : Bool :=
  if degenerate then decide ((-1 : ℚ) / 5 < nrm.z)
  else
    let d := pdot nrm rawN
    decide (0 ≤ d) || decide (d ^ 2 < pdot rawN rawN / 25)

/-- Step 3's candidate selection: the first of the k nearest vertices whose
normal is not strongly opposed to the loop normal, else the nearest. -/
def cleanCandidate (rawN : Pt) (degenerate : Bool) (normals : List Pt)
    (cands : List Nat) : Nat :=
  match cands.find?
      (fun pid => decide (pid < normals.length) &&
        normalAccepts rawN degenerate (normals.getD pid ptZero)) with
  | some pid => pid
  | none => cands.headD 0

/--
`get_selected_region()` as a state transformer: returns the (abstracted)
extraction outcome, the surface mesh as left behind, and the tool state as
left behind.  The barrier scalar write `mesh.point_data["is_barrier"] = …`
and the conditional `compute_normals(inplace=True)` are the only writes to
the live mesh; the threshold / connectivity tail works on new datasets.
The `try/except` guards around `ray_trace` and the k-d tree query are
modelled as non-throwing collaborator calls.
-/
def getSelectedRegion (m : SurfaceMesh) (s : ToolState) (rayHits : List Pt)
    (computedNormals : List Pt) (extractionResult : Option Unit) :
    Option Unit × SurfaceMesh × ToolState :=
  if s.is_closed = false then (none, m, s)
  else if m.points.isEmpty then (none, m, s)
  else
    let pathR := getFullPathPoints m s
    let rawPath := pathR.1
    let s1 := pathR.2
    if rawPath.length < 3 then (none, m, s1)
    else
      let center := ptMean rawPath
      let v1 := psub (rawPath.getD 0 ptZero) center
      let v2 := psub (rawPath.getD (rawPath.length / 3) ptZero) center
      let rawN := pcross v1 v2
      -- `norm_mag < 1e-6` compared in squared form; then `if normal[2] < 0: flip`
      let degenerate := decide (pdot rawN rawN < (1 / 1000000) ^ 2)
      let oriented := if degenerate then ⟨0, 0, 1⟩
                      else if rawN.z < 0 then pneg rawN else rawN
      let _seed := rayHits.headD center
      let meshAndNormals :=
        match m.normalsArr with
        | some ns => (m, ns)
        | none => ({ m with normalsArr := some computedNormals }, computedNormals)
      let m2 := meshAndNormals.1
      let normals := meshAndNormals.2
      let candidates := rawPath.map (fun p => kNearest m2 p 5)
      let cleanPathIds := candidates.map (cleanCandidate oriented degenerate normals)
      let barrierIds := makeBarrierWatertight m2 cleanPathIds
      let n := m2.points.length
      let scalars := (List.range n).map
        (fun i => if i ∈ barrierIds then (1 : Int) else 0)
      let m3 := { m2 with barrierArr := some scalars }
      (extractionResult, m3, s1)

/-! Helper lemmas: all cache-threading functions leave every non-cache
field of the tool state unchanged. -/

theorem getSegmentPoints_state (m : SurfaceMesh) (s : ToolState) (ia ib : Nat) :
    ∃ c, (getSegmentPoints m s ia ib).2 = { s with path_cache := c } := by
  cases h : cacheLookup (pairKey (s.node_ids.getD ia 0) (s.node_ids.getD ib 0))
      s.path_cache with
  | none => exact ⟨_, by simp only [getSegmentPoints]; rw [h]⟩
  | some pts => exact ⟨s.path_cache, by simp only [getSegmentPoints]; rw [h]⟩

theorem fullPathGo_state (m : SurfaceMesh) (count : Nat) (L : List Nat) :
    ∀ (s : ToolState) (acc : List (List Pt)),
      ∃ c, (fullPathGo m count L s acc).2 = { s with path_cache := c } := by
  induction L with
  | nil => exact fun s acc => ⟨s.path_cache, rfl⟩
  | cons i rest ih =>
    intro s acc
    obtain ⟨c0, hc0⟩ := getSegmentPoints_state m s i ((i + 1) % count)
    obtain ⟨c1, hc1⟩ := ih (getSegmentPoints m s i ((i + 1) % count)).2
      (acc ++ [if acc.isEmpty then (getSegmentPoints m s i ((i + 1) % count)).1
               else (getSegmentPoints m s i ((i + 1) % count)).1.drop 1])
    refine ⟨c1, ?_⟩
    rw [fullPathGo, hc1, hc0]

theorem updateCurve_state (m : SurfaceMesh) (s : ToolState) :
    ∃ c, updateCurve m s = { s with path_cache := c } := by
  unfold updateCurve getFullPathPoints
  split
  · exact ⟨s.path_cache, rfl⟩
  · obtain ⟨c, hc⟩ := fullPathGo_state m s.nodes.length
      (List.range (if s.is_closed then s.nodes.length else s.nodes.length - 1)) s []
    exact ⟨c, by simp [hc]⟩

theorem updateCurve_nodes (m : SurfaceMesh) (s : ToolState) :
    (updateCurve m s).nodes = s.nodes := by
  obtain ⟨c, hc⟩ := updateCurve_state m s; rw [hc]

theorem updateCurve_node_ids (m : SurfaceMesh) (s : ToolState) :
    (updateCurve m s).node_ids = s.node_ids := by
  obtain ⟨c, hc⟩ := updateCurve_state m s; rw [hc]

theorem updateCurve_is_closed (m : SurfaceMesh) (s : ToolState) :
    (updateCurve m s).is_closed = s.is_closed := by
  obtain ⟨c, hc⟩ := updateCurve_state m s; rw [hc]

theorem updateCurve_next_actor (m : SurfaceMesh) (s : ToolState) :
    (updateCurve m s).next_actor = s.next_actor := by
  obtain ⟨c, hc⟩ := updateCurve_state m s; rw [hc]

/-! Concrete fixtures: a single-triangle mesh, a 3×3 planar grid, and a
two-vertex mesh 5.3 units apart. -/

def meshTri : SurfaceMesh :=
  ⟨[⟨0,0,0⟩, ⟨1,0,0⟩, ⟨0,1,0⟩], [[0,1,2]],
   some [⟨0,0,1⟩, ⟨0,0,1⟩, ⟨0,0,1⟩], none⟩

def gridPts : List Pt :=
  [⟨0,0,0⟩, ⟨1,0,0⟩, ⟨2,0,0⟩, ⟨0,1,0⟩, ⟨1,1,0⟩, ⟨2,1,0⟩, ⟨0,2,0⟩, ⟨1,2,0⟩, ⟨2,2,0⟩]

def gridFaces : List (List Nat) :=
  [[0,1,4], [0,4,3], [1,2,5], [1,5,4], [3,4,7], [3,7,6], [4,5,8], [4,8,7]]

def meshGrid : SurfaceMesh :=
  ⟨gridPts, gridFaces, some (List.replicate 9 ⟨0,0,1⟩), none⟩

/-- A closed three-anchor loop on the grid (anchors at vertices 0, 2, 8). -/
def stateGridClosed : ToolState := ⟨[0,1,2], [0,2,8], [], true, 1, 3⟩

/-- The same three anchors with the loop still open. -/
def stateGridOpen : ToolState := ⟨[0,1,2], [0,2,8], [], false, 1, 3⟩

def meshFar : SurfaceMesh := ⟨[⟨0,0,0⟩, ⟨27/5,0,0⟩], [[0,1]], none, none⟩

/-- Two anchors on `meshFar`, empty cache. -/
def stateFar : ToolState := ⟨[0,1], [0,1], [], false, 1, 2⟩

/--
Claim 1 (undo/redo round-trip): refuted by the code.  On the one-anchor
store reached by a single Add, executing a second Add whose position
resolves to the same last vertex is an idempotent no-op — but
`BezierCmdAdd.execute` records the *existing* last actor as `added_actor`,
so undoing that command removes a pre-existing anchor instead of restoring
the state: the store observably shrinks from `([0], open)` to `([], open)`.
-/
theorem claim1_noop_add_undo_not_roundtrip :
    obs (runActions meshTri (initSys 1) [.add ⟨0,0,0⟩ (-1)]).tool = ([0], false) ∧
    obs (runActions meshTri (initSys 1)
      [.add ⟨0,0,0⟩ (-1), .add ⟨0,0,0⟩ (-1)]).tool = ([0], false) ∧
    obs (runActions meshTri (initSys 1)
      [.add ⟨0,0,0⟩ (-1), .add ⟨0,0,0⟩ (-1), .undo]).tool = ([], false) :=
  of_decide_eq_true (by with_unfolding_all rfl)

/--
Claim 2 (extraction never mutates the shared surface): refuted by the
code.  On a closed loop over the live grid mesh, `get_selected_region`
reaches step 5 and executes `self.mesh.point_data["is_barrier"] = scalars`
on the live displayed mesh: a point-data array is created in place where
none existed.
-/
theorem claim2_extraction_mutates_live_mesh :
    meshGrid.barrierArr = none ∧
    ((getSelectedRegion meshGrid stateGridClosed [] [] none).2.1.barrierArr).isSome
      = true :=
  of_decide_eq_true (by with_unfolding_all rfl)

/--
Claim 3 (extraction on an open loop is declined): `get_selected_region`
returns `None` before touching any state when the loop is not closed —
the mesh, the anchor sequence, the closed flag and the path cache are all
exactly as before the call.
-/
theorem claim3_open_loop_declined (m : SurfaceMesh) (s : ToolState)
    (rayHits computedNormals : List Pt) (extractionResult : Option Unit)
    (h : s.is_closed = false) :
    getSelectedRegion m s rayHits computedNormals extractionResult = (none, m, s) := by
  unfold getSelectedRegion
  simp [h]

theorem claim3_witness :
    stateGridOpen.is_closed = false ∧
    getSelectedRegion meshGrid stateGridOpen [] [] none
      = (none, meshGrid, stateGridOpen) :=
  ⟨rfl, claim3_open_loop_declined meshGrid stateGridOpen [] [] none rfl⟩

/--
Claim 6 (shrink-clears-closed and the `is_closed → ≥ 3 anchors`
invariant): refuted by the code.  The removal clause itself holds, but
the invariant is not preserved by every operation: close a 3-anchor loop,
delete one anchor (recorded with `was_closed = True`), perform an
idempotent no-op Add, then undo twice.  The no-op Add's undo wrongly
removes a live anchor, and the Delete's undo then restores
`is_closed = True` with only 2 anchors in the store.
-/
theorem claim6_closed_invariant_violated :
    obs (runActions meshTri (initSys 1)
      [.add ⟨0,0,0⟩ (-1), .add ⟨1,0,0⟩ (-1), .add ⟨0,1,0⟩ (-1), .close,
       .del 2, .add ⟨1,0,0⟩ (-1), .undo, .undo]).tool = ([0, 2], true) :=
  of_decide_eq_true (by with_unfolding_all rfl)

/--
Claim 9 counterexample: a plain append does *not* clear the path cache.
After two appends the cache holds the segment entry keyed `(0, 1)`; the
third append (an anchor-sequence change through `add`) leaves that entry
in place and the cache non-empty, while the claim asserts the cache holds
no entries after any such mutation.
-/
theorem claim9_counterexample :
    ((runActions meshTri (initSys 1)
        [.add ⟨0,0,0⟩ (-1), .add ⟨1,0,0⟩ (-1)]).tool.path_cache.map Prod.fst
      = [(0, 1)]) ∧
    ((0, 1) ∈ (runActions meshTri (initSys 1)
        [.add ⟨0,0,0⟩ (-1), .add ⟨1,0,0⟩ (-1), .add ⟨0,1,0⟩ (-1)]).tool.path_cache.map
          Prod.fst) ∧
    (runActions meshTri (initSys 1)
        [.add ⟨0,0,0⟩ (-1), .add ⟨1,0,0⟩ (-1), .add ⟨0,1,0⟩ (-1)]).tool.path_cache ≠ [] :=
  of_decide_eq_true (by with_unfolding_all rfl)

/--
Claim 4 (idempotent append): an append whose resolved vertex equals the
last anchor's vertex returns the existing last anchor and leaves the
state untouched, and two consecutive appends resolving to the same vertex
append at most one anchor (the second is always the no-op).
-/
theorem claim4_idempotent_append (m : SurfaceMesh) :
    (∀ (s : ToolState) (pos : Pt), s.node_ids ≠ [] →
      s.node_ids.getLast? = some (findClosestPoint m pos) →
      internalAddNode m s pos (-1)
        = ((s.nodes.getLastD 0, findClosestPoint m pos), s)) ∧
    (∀ (s : ToolState) (p1 p2 : Pt),
      findClosestPoint m p1 = findClosestPoint m p2 →
      (internalAddNode m (internalAddNode m s p1 (-1)).2 p2 (-1)).2
          = (internalAddNode m s p1 (-1)).2 ∧
      (internalAddNode m s p1 (-1)).2.node_ids.length ≤ s.node_ids.length + 1) := by
  have hnoop : ∀ (s : ToolState) (pos : Pt), s.node_ids ≠ [] →
      s.node_ids.getLast? = some (findClosestPoint m pos) →
      internalAddNode m s pos (-1)
        = ((s.nodes.getLastD 0, findClosestPoint m pos), s) := by
    intro s pos h1 h2
    unfold internalAddNode
    rw [if_pos ⟨h1, rfl, h2⟩]
  refine ⟨hnoop, ?_⟩
  intro s p1 p2 hsame
  by_cases hc : s.node_ids ≠ [] ∧ (-1 : Int) = -1 ∧
      s.node_ids.getLast? = some (findClosestPoint m p1)
  · have h1 : internalAddNode m s p1 (-1)
        = ((s.nodes.getLastD 0, findClosestPoint m p1), s) :=
      hnoop s p1 hc.1 hc.2.2
    have h2 : internalAddNode m s p2 (-1)
        = ((s.nodes.getLastD 0, findClosestPoint m p2), s) :=
      hnoop s p2 hc.1 (hsame ▸ hc.2.2)
    rw [h1, h2]
    exact ⟨rfl, Nat.le_succ _⟩
  · have hstep : (internalAddNode m s p1 (-1)).2
        = updateCurve m
            { s with nodes := s.nodes ++ [s.next_actor],
                     node_ids := s.node_ids ++ [findClosestPoint m p1],
                     next_actor := s.next_actor + 1 } := by
      unfold internalAddNode
      rw [if_neg hc]
      simp
    have hids : (internalAddNode m s p1 (-1)).2.node_ids
        = s.node_ids ++ [findClosestPoint m p1] := by
      rw [hstep, updateCurve_node_ids]
    constructor
    · have hlast : (internalAddNode m s p1 (-1)).2.node_ids.getLast?
          = some (findClosestPoint m p2) := by
        rw [hids, List.getLast?_concat, hsame]
      have hne : (internalAddNode m s p1 (-1)).2.node_ids ≠ [] := by
        rw [hids]; exact List.append_ne_nil_of_right_ne_nil _ (by simp)
      have := hnoop (internalAddNode m s p1 (-1)).2 p2 hne hlast
      rw [this]
    · rw [hids]; simp

theorem claim4_witness :
    (stateFar.node_ids ≠ [] ∧
      stateFar.node_ids.getLast? = some (findClosestPoint meshFar ⟨27/5,0,0⟩) ∧
      internalAddNode meshFar stateFar ⟨27/5,0,0⟩ (-1)
        = ((stateFar.nodes.getLastD 0, findClosestPoint meshFar ⟨27/5,0,0⟩),
            stateFar)) ∧
    (findClosestPoint meshFar ⟨27/5,0,0⟩ = findClosestPoint meshFar ⟨5,0,0⟩ ∧
      (internalAddNode meshFar
          (internalAddNode meshFar stateFar ⟨27/5,0,0⟩ (-1)).2 ⟨5,0,0⟩ (-1)).2
        = (internalAddNode meshFar stateFar ⟨27/5,0,0⟩ (-1)).2 ∧
      (internalAddNode meshFar stateFar ⟨27/5,0,0⟩ (-1)).2.node_ids.length
        ≤ stateFar.node_ids.length + 1) :=
  ⟨⟨of_decide_eq_true (by with_unfolding_all rfl),
    of_decide_eq_true (by with_unfolding_all rfl),
    (claim4_idempotent_append meshFar).1 stateFar ⟨27/5,0,0⟩
      (of_decide_eq_true (by with_unfolding_all rfl))
      (of_decide_eq_true (by with_unfolding_all rfl))⟩,
   ⟨of_decide_eq_true (by with_unfolding_all rfl),
    (claim4_idempotent_append meshFar).2 stateFar ⟨27/5,0,0⟩ ⟨5,0,0⟩
      (of_decide_eq_true (by with_unfolding_all rfl))⟩⟩

/--
Claim 5 (loop-closing guard): `close_loop()` on a 2-anchor store issues
no command and changes nothing; on an open store with at least 3 anchors
it issues a `BezierCmdCloseLoop` that sets `is_closed = true`.
-/
theorem claim5_close_loop_guard (m : SurfaceMesh) (σ : SysState) :
    (σ.tool.nodes.length = 2 → applyAction m σ .close = σ) ∧
    (3 ≤ σ.tool.nodes.length → σ.tool.is_closed = false →
      (applyAction m σ .close).tool.is_closed = true ∧
      (applyAction m σ .close).undoStack.length = σ.undoStack.length + 1) := by
  constructor
  · intro h2
    unfold applyAction
    rw [if_neg]
    rw [h2]
    exact fun hc => by omega
  · intro h3 hopen
    unfold applyAction
    rw [if_pos ⟨by omega, hopen⟩]
    refine ⟨?_, rfl⟩
    show (updateCurve m { σ.tool with is_closed := true }).is_closed = true
    rw [updateCurve_is_closed]

theorem claim5_witness :
    (⟨[0,1], [0,1], [], false, 1, 2⟩ : ToolState).nodes.length = 2 ∧
    applyAction meshTri ⟨⟨[0,1], [0,1], [], false, 1, 2⟩, [], []⟩ .close
      = ⟨⟨[0,1], [0,1], [], false, 1, 2⟩, [], []⟩ ∧
    3 ≤ stateGridOpen.nodes.length ∧ stateGridOpen.is_closed = false ∧
    (applyAction meshGrid ⟨stateGridOpen, [], []⟩ .close).tool.is_closed = true ∧
    (applyAction meshGrid ⟨stateGridOpen, [], []⟩ .close).undoStack.length
      = (⟨stateGridOpen, [], []⟩ : SysState).undoStack.length + 1 :=
  ⟨rfl,
   (claim5_close_loop_guard meshTri ⟨⟨[0,1], [0,1], [], false, 1, 2⟩, [], []⟩).1 rfl,
   of_decide_eq_true (by with_unfolding_all rfl), rfl,
   ((claim5_close_loop_guard meshGrid ⟨stateGridOpen, [], []⟩).2
     (of_decide_eq_true (by with_unfolding_all rfl)) rfl).1,
   ((claim5_close_loop_guard meshGrid ⟨stateGridOpen, [], []⟩).2
     (of_decide_eq_true (by with_unfolding_all rfl)) rfl).2⟩

theorem argminList_mem (l : List (Nat × ℚ)) :
    ∀ acc : Nat × ℚ, argminList l acc = acc ∨ argminList l acc ∈ l := by
  induction l with
  | nil => intro acc; exact Or.inl rfl
  | cons x rest ih =>
    intro acc
    obtain ⟨i, v⟩ := x
    obtain ⟨bi, bv⟩ := acc
    rcases ih (if v < bv then (i, v) else (bi, bv)) with h | h
    · rw [argminList, h]
      by_cases hv : v < bv
      · rw [if_pos hv]; exact Or.inr (List.mem_cons_self _ _)
      · rw [if_neg hv]; exact Or.inl rfl
    · rw [argminList]; exact Or.inr (List.mem_cons_of_mem _ h)

theorem argminList_le (l : List (Nat × ℚ)) :
    ∀ acc : Nat × ℚ, (argminList l acc).2 ≤ acc.2 ∧
      ∀ x ∈ l, (argminList l acc).2 ≤ x.2 := by
  induction l with
  | nil => intro acc; exact ⟨le_refl _, fun x hx => absurd hx (List.not_mem_nil x)⟩
  | cons x rest ih =>
    intro acc
    obtain ⟨i, v⟩ := x
    obtain ⟨bi, bv⟩ := acc
    have h := ih (if v < bv then (i, v) else (bi, bv))
    have hacc : (if v < bv then ((i : Nat), v) else (bi, bv)).2 ≤ bv := by
      by_cases hv : v < bv
      · rw [if_pos hv]; exact le_of_lt hv
      · rw [if_neg hv]
    have hv2 : (if v < bv then ((i : Nat), v) else (bi, bv)).2 ≤ v := by
      by_cases hv : v < bv
      · rw [if_pos hv]
      · rw [if_neg hv]; exact le_of_not_lt hv
    refine ⟨le_trans h.1 hacc, ?_⟩
    intro y hy
    rcases List.mem_cons.mp hy with rfl | hy'
    · exact le_trans h.1 hv2
    · exact h.2 y hy'

theorem sqDist_nonneg (a b : Pt) : 0 ≤ sqDist a b := by
  obtain ⟨ax, ay, az⟩ := a
  obtain ⟨bx, by', bz⟩ := b
  unfold sqDist pdot psub
  simp only
  nlinarith [mul_self_nonneg (ax - bx), mul_self_nonneg (ay - by'),
    mul_self_nonneg (az - bz)]

theorem sqDist_self (a : Pt) : sqDist a a = 0 := by
  unfold sqDist pdot psub
  ring_nf

theorem sqDist_eq_zero {a b : Pt} (h : sqDist a b = 0) : a = b := by
  obtain ⟨ax, ay, az⟩ := a
  obtain ⟨bx, by', bz⟩ := b
  unfold sqDist pdot psub at h
  simp only at h
  have hx : ax - bx = 0 := by
    nlinarith [mul_self_nonneg (ax - bx), mul_self_nonneg (ay - by'),
      mul_self_nonneg (az - bz)]
  have hy : ay - by' = 0 := by
    nlinarith [mul_self_nonneg (ax - bx), mul_self_nonneg (ay - by'),
      mul_self_nonneg (az - bz)]
  have hz : az - bz = 0 := by
    nlinarith [mul_self_nonneg (ax - bx), mul_self_nonneg (ay - by'),
      mul_self_nonneg (az - bz)]
  have e1 : ax = bx := by linarith
  have e2 : ay = by' := by linarith
  have e3 : az = bz := by linarith
  rw [e1, e2, e3]

theorem findClosestPoint_self (m : SurfaceMesh) (p : Pt) (hp : p ∈ m.points) :
    findClosestPoint m p < m.points.length ∧
    m.points.getD (findClosestPoint m p) ptZero = p := by
  obtain ⟨ip, hip, hpe⟩ := List.mem_iff_getElem.mp hp
  have hmem : ((ip, (0 : ℚ))) ∈ m.points.enum.map (fun iq => (iq.1, sqDist p iq.2)) := by
    apply List.mem_map.mpr
    refine ⟨(ip, m.points[ip]), ?_, ?_⟩
    · exact List.mem_iff_getElem.mpr
        ⟨ip, by rw [List.enum_length]; exact hip, List.getElem_enum _ _ _⟩
    · simp [hpe, sqDist_self]
  unfold findClosestPoint
  cases hl : m.points.enum.map (fun iq => (iq.1, sqDist p iq.2)) with
  | nil => rw [hl] at hmem; exact absurd hmem (List.not_mem_nil _)
  | cons iv rest =>
    have hrmem : argminList rest iv ∈ iv :: rest := by
      rcases argminList_mem rest iv with h | h
      · rw [h]; exact List.mem_cons_self _ _
      · exact List.mem_cons_of_mem _ h
    have hrl : argminList rest iv ∈ m.points.enum.map (fun iq => (iq.1, sqDist p iq.2)) := by
      rw [hl]; exact hrmem
    obtain ⟨⟨j, q⟩, hjq, hf⟩ := List.mem_map.mp hrl
    obtain ⟨hj, hq⟩ := List.mem_enum hjq
    have hle := argminList_le rest iv
    have hle0 : (argminList rest iv).2 ≤ 0 := by
      rw [hl] at hmem
      rcases List.mem_cons.mp hmem with h | h
      · have : iv.2 = 0 := by rw [← h]
        rw [← this]; exact hle.1
      · exact hle.2 _ h
    have hr2 : (argminList rest iv).2 = sqDist p q := by rw [← hf]
    have hzero : sqDist p q = 0 :=
      le_antisymm (hr2 ▸ hle0) (sqDist_nonneg p q)
    have hpq : p = q := sqDist_eq_zero hzero
    have hr1 : (argminList rest iv).1 = j := by rw [← hf]
    constructor
    · show (argminList rest iv).1 < m.points.length
      rw [hr1]; exact hj
    · show m.points.getD (argminList rest iv).1 ptZero = p
      rw [hr1, List.getD_eq_getElem m.points ptZero hj, ← hq, ← hpq]

/-! The integer square root used by `segNum` is the floor square root. -/

theorem isqrtAux_sq_le (n : Nat) : ∀ k, isqrtAux n k * isqrtAux n k ≤ n := by
  intro k
  induction k with
  | zero => simp [isqrtAux]
  | succ k ih =>
    rw [isqrtAux]
    by_cases h : (k + 1) * (k + 1) ≤ n
    · rw [if_pos h]; exact h
    · rw [if_neg h]; exact ih

theorem le_isqrtAux (n : Nat) : ∀ k j, j ≤ k → j * j ≤ n → j ≤ isqrtAux n k := by
  intro k
  induction k with
  | zero => intro j hj _; simpa [isqrtAux] using hj
  | succ k ih =>
    intro j hj hjj
    rw [isqrtAux]
    by_cases h : (k + 1) * (k + 1) ≤ n
    · rw [if_pos h]; exact hj
    · rw [if_neg h]
      rcases Nat.lt_or_ge j (k + 1) with hlt | hge
      · exact ih j (Nat.lt_succ_iff.mp hlt) hjj
      · exact absurd (Nat.le_trans (Nat.mul_le_mul hge hge) hjj) h

theorem isqrt_le (n : Nat) : isqrt n * isqrt n ≤ n := isqrtAux_sq_le n n

theorem lt_isqrt_succ (n : Nat) : n < (isqrt n + 1) * (isqrt n + 1) := by
  by_contra h
  push_neg at h
  have h1 : isqrt n + 1 ≤ (isqrt n + 1) * (isqrt n + 1) :=
    Nat.le_mul_of_pos_right _ (Nat.succ_pos _)
  have h2 : isqrt n + 1 ≤ isqrt n :=
    le_isqrtAux n n (isqrt n + 1) (Nat.le_trans h1 h) h
  omega

theorem padd_psmul_zero (a v : Pt) : padd a (psmul 0 v) = a := by
  obtain ⟨ax, ay, az⟩ := a
  obtain ⟨vx, vy, vz⟩ := v
  simp only [padd, psmul, Pt.mk.injEq]
  refine ⟨by ring, by ring, by ring⟩

theorem padd_psmul_one_psub (a b : Pt) : padd a (psmul 1 (psub b a)) = b := by
  obtain ⟨ax, ay, az⟩ := a
  obtain ⟨bx, by', bz⟩ := b
  simp only [padd, psmul, psub, Pt.mk.injEq]
  refine ⟨by ring, by ring, by ring⟩

theorem getD_mem_of_lt {l : List Pt} {i : Nat} (h : i < l.length) :
    l.getD i ptZero ∈ l := by
  rw [List.getD_eq_getElem l ptZero h]
  exact List.getElem_mem h

theorem snapPoint_of_mem (m : SurfaceMesh) {p : Pt} (hp : p ∈ m.points) :
    snapPoint m p = p := by
  unfold snapPoint
  exact (findClosestPoint_self m p hp).2

theorem computeSegment_length (m : SurfaceMesh) (pa pb : Nat) :
    (computeSegment m pa pb).length
      = segNum (m.points.getD pa ptZero) (m.points.getD pb ptZero) := by
  unfold computeSegment interpPoints
  rw [List.length_map, List.length_map, List.length_range]

theorem computeSegment_head (m : SurfaceMesh) (pa pb : Nat)
    (ha : pa < m.points.length) :
    (computeSegment m pa pb).head? = some (m.points.getD pa ptZero) := by
  unfold computeSegment interpPoints
  rw [List.map_map]
  obtain ⟨n', hn⟩ : ∃ n', segNum (m.points.getD pa ptZero) (m.points.getD pb ptZero)
      = n' + 1 := by
    have h10 : 10 ≤ segNum (m.points.getD pa ptZero) (m.points.getD pb ptZero) :=
      le_max_left _ _
    exact ⟨segNum (m.points.getD pa ptZero) (m.points.getD pb ptZero) - 1, by omega⟩
  rw [hn, List.range_succ_eq_map]
  simp only [List.map_cons, List.head?_cons, Function.comp_apply, Nat.cast_zero,
    zero_div, padd_psmul_zero]
  rw [snapPoint_of_mem m (getD_mem_of_lt ha)]

theorem computeSegment_getLast (m : SurfaceMesh) (pa pb : Nat)
    (hb : pb < m.points.length) :
    (computeSegment m pa pb).getLast? = some (m.points.getD pb ptZero) := by
  unfold computeSegment interpPoints
  rw [List.map_map]
  obtain ⟨n', hn9, hn⟩ : ∃ n', 9 ≤ n' ∧
      segNum (m.points.getD pa ptZero) (m.points.getD pb ptZero) = n' + 1 := by
    have h10 : 10 ≤ segNum (m.points.getD pa ptZero) (m.points.getD pb ptZero) :=
      le_max_left _ _
    exact ⟨segNum (m.points.getD pa ptZero) (m.points.getD pb ptZero) - 1,
      by omega, by omega⟩
  rw [hn, List.range_succ, List.map_append]
  simp only [List.map_cons, List.map_nil]
  rw [List.getLast?_concat]
  have hcast : ((n' : ℚ)) / (((n' + 1 : Nat) : ℚ) - 1) = 1 := by
    push_cast
    rw [add_sub_cancel_right]
    exact div_self (by positivity)
  simp only [Function.comp_apply]
  rw [hcast, padd_psmul_one_psub, snapPoint_of_mem m (getD_mem_of_lt hb)]

/-- Over the reals, the `segNum` sample count is exactly
`⌊dist / 0.5⌋ = ⌊2·√(sqDist)⌋` (truncated, never rounded up). -/
theorem isqrt_floor_two_sqrt (q : ℚ) (hq : 0 ≤ q) :
    ⌊2 * Real.sqrt (q : ℝ)⌋ = (isqrt (Int.toNat ⌊4 * q⌋) : ℤ) := by
  have hq4 : (0 : ℚ) ≤ 4 * q := by linarith
  have hfl : (0 : ℤ) ≤ ⌊4 * q⌋ := Int.floor_nonneg.mpr hq4
  set j := isqrt (Int.toNat ⌊4 * q⌋) with hjdef
  have hA : ((j : ℚ)) ^ 2 ≤ 4 * q := by
    have h1 : (j * j : ℕ) ≤ Int.toNat ⌊4 * q⌋ := isqrt_le _
    have h2 : ((Int.toNat ⌊4 * q⌋ : ℤ) : ℚ) ≤ 4 * q := by
      rw [Int.toNat_of_nonneg hfl]; exact Int.floor_le _
    have h3 : ((j * j : ℕ) : ℚ) ≤ ((Int.toNat ⌊4 * q⌋ : ℤ) : ℚ) := by
      exact_mod_cast h1
    push_cast at h2 h3
    nlinarith [h3, h2]
  have hB : 4 * q < ((j : ℚ) + 1) ^ 2 := by
    have h1 : Int.toNat ⌊4 * q⌋ + 1 ≤ (j + 1) * (j + 1) :=
      Nat.succ_le_of_lt (lt_isqrt_succ _)
    have h2 : 4 * q < ((Int.toNat ⌊4 * q⌋ : ℤ) : ℚ) + 1 := by
      rw [Int.toNat_of_nonneg hfl]; exact Int.lt_floor_add_one _
    have h3 : ((Int.toNat ⌊4 * q⌋ : ℕ) : ℚ) + 1 ≤ (((j + 1) * (j + 1) : ℕ) : ℚ) := by
      exact_mod_cast h1
    push_cast at h2 h3
    nlinarith [h2, h3]
  have h2s : 2 * Real.sqrt (q : ℝ) = Real.sqrt ((4 * q : ℚ) : ℝ) := by
    push_cast
    rw [show ((4 : ℝ) * q) = 2 ^ 2 * (q : ℝ) by norm_num,
      Real.sqrt_mul (by positivity), Real.sqrt_sq (by norm_num)]
  have hA2 : ((j : ℝ)) ^ 2 ≤ ((4 * q : ℚ) : ℝ) := by exact_mod_cast hA
  have hB2 : ((4 * q : ℚ) : ℝ) < ((j : ℝ) + 1) ^ 2 := by exact_mod_cast hB
  rw [h2s]
  refine Int.floor_eq_iff.mpr ⟨?_, ?_⟩
  · have h := (Real.le_sqrt (by positivity : (0 : ℝ) ≤ (j : ℝ))
      (by exact_mod_cast hq4)).mpr hA2
    exact_mod_cast h
  · have h := (Real.sqrt_lt' (by positivity : (0 : ℝ) < (j : ℝ) + 1)).mpr hB2
    exact_mod_cast h

theorem getSegmentPoints_fresh (m : SurfaceMesh) (s : ToolState) (ia ib : Nat)
    (hfresh : cacheLookup (pairKey (s.node_ids.getD ia 0) (s.node_ids.getD ib 0))
      s.path_cache = none) :
    getSegmentPoints m s ia ib
      = (computeSegment m (s.node_ids.getD ia 0) (s.node_ids.getD ib 0),
         { s with path_cache :=
             (pairKey (s.node_ids.getD ia 0) (s.node_ids.getD ib 0),
              computeSegment m (s.node_ids.getD ia 0) (s.node_ids.getD ib 0))
               :: s.path_cache }) := by
  simp only [getSegmentPoints]
  rw [hfresh]

theorem getSegmentPoints_hit (m : SurfaceMesh) (s : ToolState) (ia ib : Nat)
    (pts : List Pt)
    (hhit : cacheLookup (pairKey (s.node_ids.getD ia 0) (s.node_ids.getD ib 0))
      s.path_cache = some pts) :
    getSegmentPoints m s ia ib = (pts, s) := by
  simp only [getSegmentPoints]
  rw [hhit]

/--
Claim 7, amended: a freshly computed `get_segment(i, j)` starts at anchor
`i`'s surface position, ends at anchor `j`'s surface position, and has
`max 10 ⌊|b - a| / 0.5⌋` points — the source truncates (`int(...)`), it
does not round; the last conjunct identifies the computable count with
the real-valued truncation `⌊2·√(sqDist)⌋`.
-/
theorem claim7_segment_endpoints_and_count (m : SurfaceMesh) (s : ToolState)
    (ia ib : Nat)
    (ha : s.node_ids.getD ia 0 < m.points.length)
    (hb : s.node_ids.getD ib 0 < m.points.length)
    (hfresh : cacheLookup (pairKey (s.node_ids.getD ia 0) (s.node_ids.getD ib 0))
      s.path_cache = none) :
    (getSegmentPoints m s ia ib).1.head?
        = some (m.points.getD (s.node_ids.getD ia 0) ptZero) ∧
    (getSegmentPoints m s ia ib).1.getLast?
        = some (m.points.getD (s.node_ids.getD ib 0) ptZero) ∧
    (getSegmentPoints m s ia ib).1.length
        = max 10 (isqrt (Int.toNat ⌊4 * sqDist
            (m.points.getD (s.node_ids.getD ia 0) ptZero)
            (m.points.getD (s.node_ids.getD ib 0) ptZero)⌋)) ∧
    ⌊2 * Real.sqrt ((sqDist (m.points.getD (s.node_ids.getD ia 0) ptZero)
          (m.points.getD (s.node_ids.getD ib 0) ptZero) : ℚ) : ℝ)⌋
      = (isqrt (Int.toNat ⌊4 * sqDist (m.points.getD (s.node_ids.getD ia 0) ptZero)
          (m.points.getD (s.node_ids.getD ib 0) ptZero)⌋) : ℤ) := by
  rw [getSegmentPoints_fresh m s ia ib hfresh]
  exact ⟨computeSegment_head m _ _ ha, computeSegment_getLast m _ _ hb,
    computeSegment_length m _ _,
    isqrt_floor_two_sqrt _ (sqDist_nonneg _ _)⟩

/--
Claim 7, counterexample to the stated count: for anchors 5.4 apart
(squared distance 729/25) the returned polyline has
`int(max(10, 5.4 / 0.5)) = 10` points, while the claim's
`max(10, round(|b - a| / 0.5)) = max(10, round(10.8))` is 11.
-/
theorem claim7_counterexample :
    sqDist (meshFar.points.getD 0 ptZero) (meshFar.points.getD 1 ptZero)
      = 729 / 25 ∧
    (getSegmentPoints meshFar stateFar 0 1).1.length = 10 ∧
    max 10 (round ((27 : ℚ) / 5 / (1 / 2))) = 11 :=
  of_decide_eq_true (by with_unfolding_all rfl)

theorem claim7_witness :
    (stateFar.node_ids.getD 0 0 < meshFar.points.length ∧
     stateFar.node_ids.getD 1 0 < meshFar.points.length ∧
     cacheLookup (pairKey (stateFar.node_ids.getD 0 0) (stateFar.node_ids.getD 1 0))
       stateFar.path_cache = none) ∧
    ((getSegmentPoints meshFar stateFar 0 1).1.head?
        = some (meshFar.points.getD (stateFar.node_ids.getD 0 0) ptZero) ∧
     (getSegmentPoints meshFar stateFar 0 1).1.getLast?
        = some (meshFar.points.getD (stateFar.node_ids.getD 1 0) ptZero) ∧
     (getSegmentPoints meshFar stateFar 0 1).1.length
        = max 10 (isqrt (Int.toNat ⌊4 * sqDist
            (meshFar.points.getD (stateFar.node_ids.getD 0 0) ptZero)
            (meshFar.points.getD (stateFar.node_ids.getD 1 0) ptZero)⌋)) ∧
     ⌊2 * Real.sqrt ((sqDist (meshFar.points.getD (stateFar.node_ids.getD 0 0) ptZero)
           (meshFar.points.getD (stateFar.node_ids.getD 1 0) ptZero) : ℚ) : ℝ)⌋
       = (isqrt (Int.toNat ⌊4 * sqDist
           (meshFar.points.getD (stateFar.node_ids.getD 0 0) ptZero)
           (meshFar.points.getD (stateFar.node_ids.getD 1 0) ptZero)⌋) : ℤ)) :=
  ⟨⟨of_decide_eq_true (by with_unfolding_all rfl),
    of_decide_eq_true (by with_unfolding_all rfl),
    of_decide_eq_true (by with_unfolding_all rfl)⟩,
   claim7_segment_endpoints_and_count meshFar stateFar 0 1
     (of_decide_eq_true (by with_unfolding_all rfl))
     (of_decide_eq_true (by with_unfolding_all rfl))
     (of_decide_eq_true (by with_unfolding_all rfl))⟩

theorem cacheLookup_cons_self (key : Nat × Nat) (v : List Pt)
    (c : List ((Nat × Nat) × List Pt)) :
    cacheLookup key ((key, v) :: c) = some v := by
  simp [cacheLookup]

theorem pairKey_comm (a b : Nat) : pairKey b a = pairKey a b := by
  unfold pairKey
  rw [Nat.min_comm, Nat.max_comm]

/--
Claim 10: the path cache is keyed by the unordered vertex-id pair, so
after a fresh `get_segment(i, j)` both `get_segment(j, i)` and
`get_segment(i, j)` return the identical stored polyline — the
`i → j`-directed computation, not its reversal; the stored direction is
fixed by whichever order was queried first.
-/
theorem claim10_segment_cache_unordered (m : SurfaceMesh) (s : ToolState)
    (ia ib : Nat)
    (hfresh : cacheLookup (pairKey (s.node_ids.getD ia 0) (s.node_ids.getD ib 0))
      s.path_cache = none) :
    (getSegmentPoints m s ia ib).1
        = computeSegment m (s.node_ids.getD ia 0) (s.node_ids.getD ib 0) ∧
    (getSegmentPoints m (getSegmentPoints m s ia ib).2 ib ia).1
        = (getSegmentPoints m s ia ib).1 ∧
    (getSegmentPoints m (getSegmentPoints m s ia ib).2 ia ib).1
        = (getSegmentPoints m s ia ib).1 := by
  have hf := getSegmentPoints_fresh m s ia ib hfresh
  have h1 : (getSegmentPoints m s ia ib).1
      = computeSegment m (s.node_ids.getD ia 0) (s.node_ids.getD ib 0) := by
    rw [hf]
  refine ⟨h1, ?_, ?_⟩
  · have hhit : cacheLookup
        (pairKey ((getSegmentPoints m s ia ib).2.node_ids.getD ib 0)
          ((getSegmentPoints m s ia ib).2.node_ids.getD ia 0))
        (getSegmentPoints m s ia ib).2.path_cache
        = some (computeSegment m (s.node_ids.getD ia 0) (s.node_ids.getD ib 0)) := by
      rw [hf]
      show cacheLookup (pairKey (s.node_ids.getD ib 0) (s.node_ids.getD ia 0))
        ((pairKey (s.node_ids.getD ia 0) (s.node_ids.getD ib 0),
          computeSegment m (s.node_ids.getD ia 0) (s.node_ids.getD ib 0))
            :: s.path_cache)
        = some (computeSegment m (s.node_ids.getD ia 0) (s.node_ids.getD ib 0))
      rw [pairKey_comm]
      exact cacheLookup_cons_self _ _ _
    rw [getSegmentPoints_hit m (getSegmentPoints m s ia ib).2 ib ia _ hhit, h1]
  · have hhit : cacheLookup
        (pairKey ((getSegmentPoints m s ia ib).2.node_ids.getD ia 0)
          ((getSegmentPoints m s ia ib).2.node_ids.getD ib 0))
        (getSegmentPoints m s ia ib).2.path_cache
        = some (computeSegment m (s.node_ids.getD ia 0) (s.node_ids.getD ib 0)) := by
      rw [hf]
      exact cacheLookup_cons_self _ _ _
    rw [getSegmentPoints_hit m (getSegmentPoints m s ia ib).2 ia ib _ hhit, h1]

theorem claim10_witness :
    cacheLookup (pairKey (stateFar.node_ids.getD 0 0) (stateFar.node_ids.getD 1 0))
      stateFar.path_cache = none ∧
    ((getSegmentPoints meshFar stateFar 0 1).1
        = computeSegment meshFar (stateFar.node_ids.getD 0 0)
            (stateFar.node_ids.getD 1 0) ∧
     (getSegmentPoints meshFar (getSegmentPoints meshFar stateFar 0 1).2 1 0).1
        = (getSegmentPoints meshFar stateFar 0 1).1 ∧
     (getSegmentPoints meshFar (getSegmentPoints meshFar stateFar 0 1).2 0 1).1
        = (getSegmentPoints meshFar stateFar 0 1).1) :=
  ⟨of_decide_eq_true (by with_unfolding_all rfl),
   claim10_segment_cache_unordered meshFar stateFar 0 1
     (of_decide_eq_true (by with_unfolding_all rfl))⟩

/-! Claim 8: spec-side reference formulation of `_resolve_insertion_index`
and its equivalence with the source's interleaved fold. -/

/-- Squared distances of a point to each polyline sub-segment. -/
def segDists (hit : Pt) (pairs : List (Pt × Pt)) : List ℚ :=
  pairs.map (fun q => distSqToSegment hit q.1 q.2)

/-- Minimum of a nonempty rational list, `none` when empty. -/
def listMinQ : List ℚ → Option ℚ
  | [] => none
  | x :: xs => some (xs.foldl min x)

/-- Per-segment minimum squared point-to-segment distance (0 if degenerate;
only ever used on nonempty pair lists). -/
def polyMinDist (hit : Pt) (pairs : List (Pt × Pt)) : ℚ :=
  match segDists hit pairs with
  | [] => 0
  | d :: ds => ds.foldl min d

/-- Spec-side tabulation of all per-segment minima, threading the cache
state exactly as the source's loop does; degenerate (< 2 point) polylines
tabulate as `none` (the source skips them). -/
def collectDists (m : SurfaceMesh) (hit : Pt) (count : Nat) :
    List Nat → ToolState → List (Nat × Option ℚ) × ToolState
  | [], s => ([], s)
  | i :: rest, s =>
    let r := getSegmentPoints m s i ((i + 1) % count)
    let d? := if r.1.length < 2 then none
              else some (polyMinDist hit (consecPairs r.1))
    let t := collectDists m hit count rest r.2
    ((i, d?) :: t.1, t.2)

/-- First segment index attaining a given per-segment minimum. -/
def firstAt (ds : List (Nat × Option ℚ)) (g : ℚ) : Int :=
  match ds.find? (fun p => decide (p.2 = some g)) with
  | some p => (p.1 : Int)
  | none => -1

/--
The claim's formulation of insertion-index resolution: over every existing
curve segment (the closing one exactly when the loop is closed) take the
minimum squared clamped point-to-segment distance to the hit point; if the
global minimum is below `(3.5 * node_radius)²`, answer the starting anchor
index of the (first) globally nearest segment, else `-1` (append).
-/
def resolveInsertionIndexSpec (m : SurfaceMesh) (s : ToolState) (hit : Pt) : Int :=
  if s.nodes.length < 2 then -1
  else
    let thresholdSq := (s.node_radius * (7 / 2)) ^ 2
    let count := s.nodes.length
    let loopRange := if s.is_closed then count else count - 1
    let ds := (collectDists m hit count (List.range loopRange) s).1
    match listMinQ (ds.filterMap Prod.snd) with
    | none => -1
    | some g => if g < thresholdSq then firstAt ds g else -1

theorem foldl_min_init (a b : ℚ) (l : List ℚ) :
    l.foldl min (min a b) = min a (l.foldl min b) := by
  induction l generalizing b with
  | nil => rfl
  | cons x xs ih =>
    show xs.foldl min (min (min a b) x) = min a ((x :: xs).foldl min b)
    rw [min_assoc, ih (min b x)]
    rfl

theorem polyMinDist_cons (hit : Pt) (p : Pt × Pt) (rest : List (Pt × Pt))
    (hne : rest ≠ []) :
    polyMinDist hit (p :: rest)
      = min (distSqToSegment hit p.1 p.2) (polyMinDist hit rest) := by
  cases rest with
  | nil => exact absurd rfl hne
  | cons p2 rest2 =>
    show (segDists hit (p2 :: rest2)).foldl min (distSqToSegment hit p.1 p.2)
      = _
    rw [segDists, List.map_cons]
    show (segDists hit rest2).foldl min
        (min (distSqToSegment hit p.1 p.2) (distSqToSegment hit p2.1 p2.2)) = _
    rw [foldl_min_init]
    rfl

theorem innerScan_eq (hit : Pt) (i : Int) :
    ∀ (pairs : List (Pt × Pt)) (b : Int) (mo : Option ℚ), pairs ≠ [] →
      innerScan hit i (b, mo) pairs
        = if ltOpt (polyMinDist hit pairs) mo then (i, some (polyMinDist hit pairs))
          else (b, mo) := by
  intro pairs
  induction pairs with
  | nil => intro b mo h; exact absurd rfl h
  | cons p rest ih =>
    intro b mo _
    cases rest with
    | nil =>
      show innerScan hit i
          (if ltOpt (distSqToSegment hit p.1 p.2) mo then
            (i, some (distSqToSegment hit p.1 p.2)) else (b, mo)) [] = _
      have hpm : polyMinDist hit [p] = distSqToSegment hit p.1 p.2 := rfl
      rw [hpm]
      by_cases h : ltOpt (distSqToSegment hit p.1 p.2) mo = true
      · rw [if_pos h]; rfl
      · rw [if_neg h]; rfl
    | cons p2 rest2 =>
      have hne2 : p2 :: rest2 ≠ ([] : List (Pt × Pt)) := by simp
      have hpm := polyMinDist_cons hit p (p2 :: rest2) hne2
      set d0 := distSqToSegment hit p.1 p.2 with hd0
      set dr := polyMinDist hit (p2 :: rest2) with hdr
      show innerScan hit i (if ltOpt d0 mo then (i, some d0) else (b, mo))
          (p2 :: rest2) = _
      rw [hpm]
      by_cases h0 : ltOpt d0 mo = true
      · rw [if_pos h0, ih i (some d0) hne2]
        have hlt : ltOpt (min d0 dr) mo = true := by
          cases mo with
          | none => rfl
          | some v =>
            simp only [ltOpt, decide_eq_true_eq] at h0 ⊢
            exact lt_of_le_of_lt (min_le_left _ _) h0
        rw [if_pos hlt]
        by_cases hdlt : ltOpt dr (some d0) = true
        · rw [if_pos hdlt]
          simp only [ltOpt, decide_eq_true_eq] at hdlt
          rw [min_eq_right (le_of_lt hdlt)]
        · rw [if_neg hdlt]
          simp only [ltOpt, decide_eq_true_eq] at hdlt
          rw [min_eq_left (le_of_not_lt hdlt)]
      · rw [if_neg h0, ih b mo hne2]
        cases mo with
        | none => exact absurd rfl h0
        | some M =>
          simp only [ltOpt, decide_eq_true_eq] at h0
          have hd0M : M ≤ d0 := le_of_not_lt h0
          by_cases hg : dr < M
          · have h1 : ltOpt dr (some M) = true := by
              simp only [ltOpt, decide_eq_true_eq]; exact hg
            have h2 : ltOpt (min d0 dr) (some M) = true := by
              simp only [ltOpt, decide_eq_true_eq]
              exact lt_of_le_of_lt (min_le_right _ _) hg
            rw [if_pos h1, if_pos h2,
              min_eq_right (le_of_lt (lt_of_lt_of_le hg hd0M))]
          · have h1 : ltOpt dr (some M) = false := by
              simp only [ltOpt, decide_eq_false_iff_not, not_lt]
              exact le_of_not_lt hg
            have h2 : ltOpt (min d0 dr) (some M) = false := by
              simp only [ltOpt, decide_eq_false_iff_not, not_lt, le_min_iff]
              exact ⟨hd0M, le_of_not_lt hg⟩
            rw [if_neg (by rw [h1]; exact Bool.false_ne_true),
              if_neg (by rw [h2]; exact Bool.false_ne_true)]

/-- One strict-improvement fold step over a tabulated per-segment minimum. -/
def combineStep (acc : Int × Option ℚ) (p : Nat × Option ℚ) : Int × Option ℚ :=
  match p.2 with
  | none => acc
  | some d => if ltOpt d acc.2 then ((p.1 : Int), some d) else acc

theorem consecPairs_length (l : List Pt) :
    (consecPairs l).length = l.length - 1 := by
  unfold consecPairs
  rw [List.length_zip, List.length_tail]
  omega

theorem resolveGo_eq_collect (m : SurfaceMesh) (hit : Pt) (count : Nat) :
    ∀ (L : List Nat) (s : ToolState) (acc : Int × Option ℚ),
      resolveGo m hit count L s acc
        = ((collectDists m hit count L s).1.foldl combineStep acc,
           (collectDists m hit count L s).2) := by
  intro L
  induction L with
  | nil => intro s acc; rfl
  | cons i rest ih =>
    intro s acc
    obtain ⟨b, mo⟩ := acc
    show resolveGo m hit count (i :: rest) s (b, mo) = _
    rw [resolveGo, collectDists]
    simp only [List.foldl_cons]
    rw [ih]
    congr 1
    · congr 1
      by_cases hlen : (getSegmentPoints m s i ((i + 1) % count)).1.length < 2
      · rw [if_pos hlen, if_pos hlen]
        rfl
      · rw [if_neg hlen, if_neg hlen]
        have hne : consecPairs (getSegmentPoints m s i ((i + 1) % count)).1 ≠ [] := by
          have := consecPairs_length (getSegmentPoints m s i ((i + 1) % count)).1
          intro hc
          rw [hc] at this
          simp at this
          omega
        rw [innerScan_eq hit (i : Int) _ b mo hne]
        rfl

theorem listMinQ_cons (d : ℚ) (vs : List ℚ) :
    listMinQ (d :: vs)
      = some (match listMinQ vs with | none => d | some g => min d g) := by
  cases vs with
  | nil => rfl
  | cons v vs2 =>
    show some ((v :: vs2).foldl min d) = _
    rw [List.foldl_cons, foldl_min_init]
    rfl

theorem firstAt_cons_none (i : Nat) (rest : List (Nat × Option ℚ)) (g : ℚ) :
    firstAt ((i, none) :: rest) g = firstAt rest g := by
  unfold firstAt
  rw [List.find?_cons_of_neg]
  simp

theorem firstAt_cons_eq (i : Nat) (d : ℚ) (rest : List (Nat × Option ℚ)) :
    firstAt ((i, some d) :: rest) d = (i : Int) := by
  unfold firstAt
  rw [List.find?_cons_of_pos]
  simp

theorem firstAt_cons_ne (i : Nat) (d g : ℚ) (rest : List (Nat × Option ℚ))
    (h : d ≠ g) :
    firstAt ((i, some d) :: rest) g = firstAt rest g := by
  unfold firstAt
  rw [List.find?_cons_of_neg]
  simp [h]

theorem foldl_combineStep_spec :
    ∀ (ds : List (Nat × Option ℚ)) (b : Int) (mo : Option ℚ),
      ds.foldl combineStep (b, mo)
        = match listMinQ (ds.filterMap Prod.snd) with
          | none => (b, mo)
          | some g => if ltOpt g mo then (firstAt ds g, some g) else (b, mo) := by
  intro ds
  induction ds with
  | nil => intro b mo; rfl
  | cons p rest ih =>
    intro b mo
    obtain ⟨i, d?⟩ := p
    cases d? with
    | none =>
      rw [List.foldl_cons]
      show rest.foldl combineStep (b, mo) = _
      rw [ih b mo]
      have hfm : ((i, (none : Option ℚ)) :: rest).filterMap Prod.snd
          = rest.filterMap Prod.snd := by
        rw [List.filterMap_cons]
      rw [hfm]
      cases hmin : listMinQ (rest.filterMap Prod.snd) with
      | none => rfl
      | some g =>
        dsimp only
        by_cases hg : ltOpt g mo = true
        · rw [if_pos hg, if_pos hg, firstAt_cons_none]
        · rw [if_neg hg, if_neg hg]
    | some d =>
      rw [List.foldl_cons]
      have hfm : ((i, some d) :: rest).filterMap Prod.snd
          = d :: rest.filterMap Prod.snd := by
        rw [List.filterMap_cons]
      rw [hfm, listMinQ_cons]
      dsimp only
      by_cases h0 : ltOpt d mo = true
      · have hstep : combineStep (b, mo) (i, some d) = ((i : Int), some d) := by
          show (if ltOpt d mo then ((i : Int), some d) else (b, mo))
            = ((i : Int), some d)
          rw [if_pos h0]
        rw [hstep, ih]
        cases hmin : listMinQ (rest.filterMap Prod.snd) with
        | none =>
          dsimp only
          have hgood : ltOpt d mo = true := h0
          rw [if_pos hgood, firstAt_cons_eq]
        | some g =>
          dsimp only
          by_cases hgd : ltOpt g (some d) = true
          · simp only [ltOpt, decide_eq_true_eq] at hgd
            have hmin2 : min d g = g := min_eq_right (le_of_lt hgd)
            have hglt : ltOpt (min d g) mo = true := by
              cases mo with
              | none => rfl
              | some M =>
                simp only [ltOpt, decide_eq_true_eq] at h0 ⊢
                exact lt_of_le_of_lt (min_le_left _ _) h0
            rw [if_pos (by simp only [ltOpt, decide_eq_true_eq]; exact hgd),
              if_pos hglt, hmin2, firstAt_cons_ne i d g rest (ne_of_gt hgd)]
          · have hdg : d ≤ g := by
              simp only [ltOpt, decide_eq_true_eq] at hgd
              exact le_of_not_lt hgd
            have hmin2 : min d g = d := min_eq_left hdg
            have hglt : ltOpt (min d g) mo = true := by
              rw [hmin2]; exact h0
            rw [if_neg hgd, if_pos hglt, hmin2, firstAt_cons_eq]
      · cases mo with
        | none => exact absurd rfl h0
        | some M =>
          simp only [ltOpt, decide_eq_true_eq] at h0
          have hMd : M ≤ d := le_of_not_lt h0
          have hstep : combineStep (b, some M) (i, some d) = (b, some M) := by
            show (if ltOpt d (some M) then ((i : Int), some d) else (b, some M))
              = (b, some M)
            rw [if_neg (by simp only [ltOpt, decide_eq_true_eq]; exact h0)]
          rw [hstep, ih]
          cases hmin : listMinQ (rest.filterMap Prod.snd) with
          | none =>
            dsimp only
            rw [if_neg (by simp only [ltOpt, decide_eq_true_eq]; exact h0)]
          | some g =>
            dsimp only
            by_cases hgM : g < M
            · have h1 : ltOpt g (some M) = true := by
                simp only [ltOpt, decide_eq_true_eq]; exact hgM
              have h2 : ltOpt (min d g) (some M) = true := by
                simp only [ltOpt, decide_eq_true_eq]
                exact lt_of_le_of_lt (min_le_right _ _) hgM
              have hmin2 : min d g = g :=
                min_eq_right (le_of_lt (lt_of_lt_of_le hgM hMd))
              rw [if_pos h1, if_pos h2, hmin2,
                firstAt_cons_ne i d g rest
                  (ne_of_gt (lt_of_lt_of_le hgM hMd))]
            · have h1 : ltOpt g (some M) = false := by
                simp only [ltOpt, decide_eq_false_iff_not, not_lt]
                exact le_of_not_lt hgM
              have h2 : ltOpt (min d g) (some M) = false := by
                simp only [ltOpt, decide_eq_false_iff_not, not_lt, le_min_iff]
                exact ⟨hMd, le_of_not_lt hgM⟩
              rw [if_neg (by rw [h1]; exact Bool.false_ne_true),
                if_neg (by rw [h2]; exact Bool.false_ne_true)]

/--
Claim 8: the source's insertion-index resolution agrees exactly with the
claim's formulation — global minimum of per-segment clamped squared
point-to-segment distances, thresholded at `(3.5 · node_radius)²`, the
first globally nearest segment's starting index, append (`-1`) otherwise.
-/
theorem claim8_resolve_insertion_index (m : SurfaceMesh) (s : ToolState)
    (hit : Pt) :
    (resolveInsertionIndex m s hit).1 = resolveInsertionIndexSpec m s hit := by
  unfold resolveInsertionIndex resolveInsertionIndexSpec
  by_cases hlen : s.nodes.length < 2
  · rw [if_pos hlen, if_pos hlen]
  · rw [if_neg hlen, if_neg hlen]
    simp only [resolveGo_eq_collect, foldl_combineStep_spec]
    cases hmin : listMinQ
        (((collectDists m hit s.nodes.length
          (List.range (if s.is_closed = true then s.nodes.length
            else s.nodes.length - 1)) s).1).filterMap Prod.snd) with
    | none => rfl
    | some g =>
      dsimp only
      simp only [ltOpt, if_true]
      by_cases hthr : g < (s.node_radius * (7 / 2)) ^ 2
      · rw [if_pos hthr, if_pos hthr]
      · rw [if_neg hthr, if_neg hthr]

/-! Claim 9: cache-invalidation behaviour of the anchor-store mutations. -/

/-- The unordered cache keys of the currently adjacent anchor pairs
(the wrapping pair included exactly when the loop is closed). -/
def adjKeys (t : ToolState) : List (Nat × Nat) :=
  (List.range (if t.is_closed then t.nodes.length else t.nodes.length - 1)).map
    (fun i => pairKey (t.node_ids.getD i 0)
      (t.node_ids.getD ((i + 1) % t.nodes.length) 0))

theorem getSegmentPoints_cache_mono (m : SurfaceMesh) (s : ToolState)
    (ia ib : Nat) {kv : (Nat × Nat) × List Pt} (h : kv ∈ s.path_cache) :
    kv ∈ (getSegmentPoints m s ia ib).2.path_cache := by
  cases hl : cacheLookup (pairKey (s.node_ids.getD ia 0) (s.node_ids.getD ib 0))
      s.path_cache with
  | some pts => rw [getSegmentPoints_hit m s ia ib pts hl]; exact h
  | none => rw [getSegmentPoints_fresh m s ia ib hl]; exact List.mem_cons_of_mem _ h

theorem getSegmentPoints_cache_sub (m : SurfaceMesh) (s : ToolState)
    (ia ib : Nat) {kv : (Nat × Nat) × List Pt}
    (h : kv ∈ (getSegmentPoints m s ia ib).2.path_cache) :
    kv ∈ s.path_cache
      ∨ kv.1 = pairKey (s.node_ids.getD ia 0) (s.node_ids.getD ib 0) := by
  cases hl : cacheLookup (pairKey (s.node_ids.getD ia 0) (s.node_ids.getD ib 0))
      s.path_cache with
  | some pts =>
    rw [getSegmentPoints_hit m s ia ib pts hl] at h
    exact Or.inl h
  | none =>
    rw [getSegmentPoints_fresh m s ia ib hl] at h
    rcases List.mem_cons.mp h with rfl | h2
    · exact Or.inr rfl
    · exact Or.inl h2

theorem fullPathGo_cache_mono (m : SurfaceMesh) (count : Nat) :
    ∀ (L : List Nat) (s : ToolState) (acc : List (List Pt))
      {kv : (Nat × Nat) × List Pt}, kv ∈ s.path_cache →
      kv ∈ (fullPathGo m count L s acc).2.path_cache := by
  intro L
  induction L with
  | nil => intro s acc kv h; exact h
  | cons i rest ih =>
    intro s acc kv h
    exact ih _ _ (getSegmentPoints_cache_mono m s i ((i + 1) % count) h)

theorem fullPathGo_cache_sub (m : SurfaceMesh) (count : Nat) :
    ∀ (L : List Nat) (s : ToolState) (acc : List (List Pt))
      {kv : (Nat × Nat) × List Pt},
      kv ∈ (fullPathGo m count L s acc).2.path_cache →
      kv ∈ s.path_cache ∨ ∃ i ∈ L,
        kv.1 = pairKey (s.node_ids.getD i 0)
          (s.node_ids.getD ((i + 1) % count) 0) := by
  intro L
  induction L with
  | nil => intro s acc kv h; exact Or.inl h
  | cons i rest ih =>
    intro s acc kv h
    obtain ⟨c, hc⟩ := getSegmentPoints_state m s i ((i + 1) % count)
    rcases ih _ _ h with h2 | ⟨j, hj, hkey⟩
    · rcases getSegmentPoints_cache_sub m s i ((i + 1) % count) h2 with h3 | h3
      · exact Or.inl h3
      · exact Or.inr ⟨i, List.mem_cons_self _ _, h3⟩
    · rw [hc] at hkey
      exact Or.inr ⟨j, List.mem_cons_of_mem _ hj, hkey⟩

theorem updateCurve_cache_mono (m : SurfaceMesh) (s : ToolState)
    {kv : (Nat × Nat) × List Pt} (h : kv ∈ s.path_cache) :
    kv ∈ (updateCurve m s).path_cache := by
  unfold updateCurve getFullPathPoints
  by_cases hlen : s.nodes.length < 2
  · rw [if_pos hlen]; exact h
  · rw [if_neg hlen]
    exact fullPathGo_cache_mono m s.nodes.length _ s [] h

theorem updateCurve_cache_sub (m : SurfaceMesh) (s : ToolState)
    {kv : (Nat × Nat) × List Pt} (h : kv ∈ (updateCurve m s).path_cache) :
    kv ∈ s.path_cache ∨ kv.1 ∈ adjKeys s := by
  unfold updateCurve getFullPathPoints at h
  by_cases hlen : s.nodes.length < 2
  · rw [if_pos hlen] at h; exact Or.inl h
  · rw [if_neg hlen] at h
    rcases fullPathGo_cache_sub m s.nodes.length _ s [] h with h2 | ⟨i, hi, hkey⟩
    · exact Or.inl h2
    · refine Or.inr (List.mem_map.mpr ⟨i, ?_, hkey.symm⟩)
      exact hi

theorem adjKeys_updateCurve (m : SurfaceMesh) (s : ToolState) :
    adjKeys (updateCurve m s) = adjKeys s := by
  obtain ⟨c, hc⟩ := updateCurve_state m s
  rw [hc]
  rfl

/--
Claim 9, amended: `_invalidate_neighbors` ignores its index argument and
clears the entire cache, and it runs on insert, move, remove and restore —
after any of those every cache key is the unordered vertex-id pair of some
currently adjacent anchor pair (stale entries cannot survive; the curve
update immediately repopulates the current segments).  A plain append,
however, performs no invalidation at all: every prior cache entry
survives it (the claim's "cache holds no entries after any mutation"
fails there, see `claim9_counterexample`).
-/
theorem claim9_amended (m : SurfaceMesh) :
    (∀ (s : ToolState) (actor idx : Nat),
      s.nodes.findIdx? (fun a => decide (a = actor)) = some idx →
      ((internalRemoveByActor m s actor).path_cache.map Prod.fst)
        ⊆ adjKeys (internalRemoveByActor m s actor)) ∧
    (∀ (s : ToolState) (actor pid idx : Nat),
      s.nodes.findIdx? (fun a => decide (a = actor)) = some idx →
      ((internalUpdateNodePos m s actor pid).path_cache.map Prod.fst)
        ⊆ adjKeys (internalUpdateNodePos m s actor pid)) ∧
    (∀ (s : ToolState) (actor pid idx : Nat) (wc : Bool),
      ((internalRestoreNode m s actor pid idx wc).path_cache.map Prod.fst)
        ⊆ adjKeys (internalRestoreNode m s actor pid idx wc)) ∧
    (∀ (s : ToolState) (pos : Pt) (k : Int), k ≠ -1 →
      (((internalAddNode m s pos k).2).path_cache.map Prod.fst)
        ⊆ adjKeys ((internalAddNode m s pos k).2)) ∧
    (∀ (s : ToolState) (pos : Pt),
      s.path_cache ⊆ ((internalAddNode m s pos (-1)).2).path_cache) := by
  have hfresh : ∀ (s0 : ToolState), s0.path_cache = [] →
      ((updateCurve m s0).path_cache.map Prod.fst) ⊆ adjKeys (updateCurve m s0) := by
    intro s0 h0 k hk
    obtain ⟨kv, hkv, rfl⟩ := List.mem_map.mp hk
    rcases updateCurve_cache_sub m s0 hkv with h | h
    · rw [h0] at h; exact absurd h (List.not_mem_nil _)
    · rw [adjKeys_updateCurve]; exact h
  refine ⟨?_, ?_, ?_, ?_, ?_⟩
  · intro s actor idx hidx
    unfold internalRemoveByActor
    rw [hidx]
    exact hfresh _ rfl
  · intro s actor pid idx hidx
    unfold internalUpdateNodePos
    rw [hidx]
    exact hfresh _ rfl
  · intro s actor pid idx wc
    unfold internalRestoreNode
    exact hfresh _ rfl
  · intro s pos k hk
    simp only [internalAddNode]
    rw [if_neg (fun hcond => hk hcond.2.1), if_pos hk]
    exact hfresh _ rfl
  · intro s pos
    simp only [internalAddNode]
    by_cases hc : s.node_ids ≠ [] ∧ True ∧
        s.node_ids.getLast? = some (findClosestPoint m pos)
    · rw [if_pos hc]
      exact List.Subset.refl _
    · rw [if_neg hc, if_neg (fun h2 => h2 rfl)]
      intro kv hkv
      exact updateCurve_cache_mono m _ hkv

theorem claim9_witness :
    stateGridOpen.nodes.findIdx? (fun a => decide (a = 0)) = some 0 ∧
    ((internalRemoveByActor meshGrid stateGridOpen 0).path_cache.map Prod.fst)
      ⊆ adjKeys (internalRemoveByActor meshGrid stateGridOpen 0) ∧
    stateFar.path_cache
      ⊆ ((internalAddNode meshFar stateFar ⟨0,0,0⟩ (-1)).2).path_cache :=
  ⟨of_decide_eq_true (by with_unfolding_all rfl),
   (claim9_amended meshGrid).1 stateGridOpen 0 0
     (of_decide_eq_true (by with_unfolding_all rfl)),
   (claim9_amended meshFar).2.2.2.2 stateFar ⟨0,0,0⟩⟩
